import Mathlib

/-!
Verification of the ChessGptt position-analysis engine.

The repository analyzes a chess position and produces a bundle of positional
heuristics per side, plus a structural differ for two bundles.  The heuristic
feature functions live in `src/features/features.py` (class form) and
`src/backend/features.py` (identical function form); the backend feature-vector
extractor lives in `src/backend/feature_vectors.py`.  Board representation,
attack queries and legal-move generation are delegated to the external
python-chess library, so those primitives are modelled here from the spec
(sections 3, 4.2 and 4.3); every feature function is translated directly from
the repository source.

Squares are integers in [0,64) with file = s % 8 and rank = s / 8, exactly as
in the source.
-/

namespace ChessGptt

/-- Piece color.  python-chess `chess.WHITE` / `chess.BLACK`. -/
inductive Color where
  | white
  | black
deriving DecidableEq, Repr

/-- `not color` in the Python source: the opposite color. -/
def Color.other : Color → Color
  | .white => .black
  | .black => .white

/-- The six chess piece types. -/
inductive PieceType where
  | pawn
  | knight
  | bishop
  | rook
  | queen
  | king
deriving DecidableEq, Repr

/-- A piece: type plus color (spec section 3). -/
structure Piece where
  pt : PieceType
  color : Color
deriving DecidableEq, Repr

/-- Modelled from the spec: the immutable Position of section 3 (python-chess
`chess.Board` as used by the source) — a mapping from squares to optional
pieces, side to move, per-color castling-rights flags and an optional
en-passant target square.  Halfmove/fullmove counters are not consulted by any
feature function and are omitted. -/
structure Board where
  pieceAt : Nat → Option Piece
  turn : Color
  castleWK : Bool
  castleWQ : Bool
  castleBK : Bool
  castleBQ : Bool
  epTarget : Option Nat

/-- `chess.square_file`: file index of a square. -/
def fileOf (s : Nat) : Nat := s % 8

/-- `chess.square_rank`: rank index of a square. -/
def rankOf (s : Nat) : Nat := s / 8

/-- `chess.square(file, rank) = rank * 8 + file`. -/
def mkSq (f r : Nat) : Nat := r * 8 + f

/-- Shift a square by a (file, rank) offset, returning `none` when the result
leaves the 8x8 board.  Basis for the offset tables and ray walks of the
attack oracle (spec section 4.2). -/
def shift (s : Nat) (d : Int × Int) : Option Nat :=
  let f : Int := (s % 8 : Nat) + d.1
  let r : Int := (s / 8 : Nat) + d.2
  if 0 ≤ f ∧ f < 8 ∧ 0 ≤ r ∧ r < 8 then some ((r * 8 + f).toNat) else none

/-- The eight king-step offsets (spec section 4.2: kings use fixed offset
tables). -/
def kingOffsets : List (Int × Int) :=
  [(-1, -1), (0, -1), (1, -1), (-1, 0), (1, 0), (-1, 1), (0, 1), (1, 1)]

/-- The eight knight-jump offsets (spec section 4.2). -/
def knightOffsets : List (Int × Int) :=
  [(-2, -1), (-1, -2), (1, -2), (2, -1), (-2, 1), (-1, 2), (1, 2), (2, 1)]

/-- Modelled from the spec: python-chess `chess.BB_KING_ATTACKS[s]` viewed as
the ascending list of squares a king on `s` steps to (`chess.SquareSet`
iterates squares in increasing order). -/
def kingAttacksBB (s : Nat) : List Nat :=
  (List.range 64).filter fun t => kingOffsets.any fun d => shift s d == some t

/-- Modelled from the spec: python-chess `chess.BB_KNIGHT_ATTACKS[s]` as the
ascending list of squares a knight on `s` attacks. -/
def knightAttacksBB (s : Nat) : List Nat :=
  (List.range 64).filter fun t => knightOffsets.any fun d => shift s d == some t

/-- Squares a pawn of the given color attacks from `s`: the two forward
diagonals (spec section 4.2: pawns attack diagonally only, not forward). -/
def pawnAttacks (c : Color) (s : Nat) : List Nat :=
  let dr : Int := match c with | .white => 1 | .black => -1
  [(-1, dr), (1, dr)].filterMap (shift s ·)

/-- The four rook ray directions. -/
def rookDirs : List (Int × Int) := [(1, 0), (-1, 0), (0, 1), (0, -1)]

/-- The four bishop ray directions. -/
def bishopDirs : List (Int × Int) := [(1, 1), (1, -1), (-1, 1), (-1, -1)]

/-- All eight queen ray directions. -/
def queenDirs : List (Int × Int) := rookDirs ++ bishopDirs

/-- Walk from `cur` along direction `d` for at most `fuel` steps, listing the
squares passed (at most 7 are ever needed on an 8x8 board). -/
def rayGo (fuel : Nat) (cur : Nat) (d : Int × Int) : List Nat :=
  match fuel with
  | 0 => []
  | fuel' + 1 =>
    match shift cur d with
    | none => []
    | some t => t :: rayGo fuel' t d

/-- All squares on the ray from `s` in direction `d`, to the board edge. -/
def raySquares (s : Nat) (d : Int × Int) : List Nat := rayGo 7 s d

/-- Truncate a ray at the first occupied square, keeping that square (spec
section 4.2: sliding attack with blocker — squares up to and including the
first occupied square). -/
def takeUntilOccupied (b : Board) : List Nat → List Nat
  | [] => []
  | t :: ts => if (b.pieceAt t).isSome then [t] else t :: takeUntilOccupied b ts

/-- Squares attacked along one ray by a slider on `s`. -/
def rayAttacks (b : Board) (s : Nat) (d : Int × Int) : List Nat :=
  takeUntilOccupied b (raySquares s d)

/-- Modelled from the spec: the squares attacked by the piece standing on
square `s` (empty when the square is empty), per the movement rules of spec
section 4.2 — the per-piece case of python-chess attack generation. -/
def attacksFrom (b : Board) (s : Nat) : List Nat :=
  match b.pieceAt s with
  | none => []
  | some p =>
    match p.pt with
    | .pawn => pawnAttacks p.color s
    | .knight => knightAttacksBB s
    | .king => kingAttacksBB s
    | .bishop => bishopDirs.flatMap (rayAttacks b s)
    | .rook => rookDirs.flatMap (rayAttacks b s)
    | .queen => queenDirs.flatMap (rayAttacks b s)

/-- Modelled from the spec: python-chess `Board.is_attacked_by(color, sq)` —
some piece of `c` attacks `sq` (spec section 4.2 `is_attacked`). -/
def isAttackedBy (b : Board) (c : Color) (sq : Nat) : Bool :=
  (List.range 64).any fun s =>
    match b.pieceAt s with
    | some p => p.color == c && (attacksFrom b s).contains sq
    | none => false

/-- Modelled from the spec: python-chess `Board.king(color)` — the square of
the color's king (lowest square index first; valid Positions hold exactly one
king per color, spec section 3). -/
def kingSq (b : Board) (c : Color) : Option Nat :=
  (List.range 64).find? fun s => b.pieceAt s == some ⟨.king, c⟩

/-- Modelled from the spec: `in_check(Position, color)` of section 4.2 — the
color's king square is attacked by the opposite color. -/
def inCheck (b : Board) (c : Color) : Bool :=
  match kingSq b c with
  | some k => isAttackedBy b c.other k
  | none => false

/-- Does a slider of type `pt` slide along direction `d`? -/
def slidesAlong (pt : PieceType) (d : Int × Int) : Bool :=
  match pt with
  | .queen => true
  | .rook => rookDirs.contains d
  | .bishop => bishopDirs.contains d
  | _ => false

/-- Modelled from the spec: python-chess `Board.is_pinned(color, sq)`, per
spec section 4.2 — along some ray from the king, the first occupied square is
`sq` holding a friendly piece and the second is an enemy slider that slides
along that ray, with no other occupied square between. -/
def isPinned (b : Board) (c : Color) (sq : Nat) : Bool :=
  match kingSq b c with
  | none => false
  | some k =>
    queenDirs.any fun d =>
      match takeUntilOccupied b (raySquares k d) with
      | [] => false
      | path =>
        match path.getLast? with
        | none => false
        | some first =>
          first == sq &&
          (match b.pieceAt sq with
           | some p => p.color == c
           | none => false) &&
          (match takeUntilOccupied b (raySquares sq d) with
           | [] => false
           | path2 =>
             match path2.getLast? with
             | none => false
             | some second =>
               match b.pieceAt second with
               | some q => q.color == c.other && slidesAlong q.pt d
               | none => false)

/-! ### Move generator (spec section 4.3)

Legal-move generation is performed by python-chess (`Board.legal_moves`) and is
modelled here from the spec: pseudo-legal moves per piece type, then a
simulate-then-test filter that keeps a move only when the moving side's king is
not left in check. -/

/-- Special-move flags of a Move (spec section 3). -/
inductive MoveKind where
  | normal
  | enPassant
  | castleKing
  | castleQueen
deriving DecidableEq, Repr

/-- A move: origin, destination, optional promotion piece type, flag (spec
section 3). -/
structure Move where
  fromSq : Nat
  toSq : Nat
  promo : Option PieceType
  kind : MoveKind
deriving DecidableEq, Repr

/-- The four promotion choices generated for a pawn reaching the last rank. -/
def promoChoices : List PieceType := [.queen, .rook, .bishop, .knight]

/-- Is the square occupied by a piece of color `c`? -/
def occupiedBy (b : Board) (c : Color) (s : Nat) : Bool :=
  match b.pieceAt s with
  | some p => p.color == c
  | none => false

/-- Destination, promotion and flag of the pseudo-legal pawn moves from `s` —
single push, double push only from the starting rank with both squares empty,
diagonal captures, en-passant capture only onto the recorded target, and the
four promotion choices on reaching the last rank (spec section 4.3). -/
def pawnTargets (b : Board) (s : Nat) (c : Color) : List (Nat × Option PieceType × MoveKind) :=
  let dr : Int := match c with | .white => 1 | .black => -1
  let startRank : Nat := match c with | .white => 1 | .black => 6
  let promoRank : Nat := match c with | .white => 7 | .black => 0
  let pushes : List (Nat × Option PieceType × MoveKind) :=
    match shift s (0, dr) with
    | none => []
    | some t =>
      if (b.pieceAt t).isNone then
        (if rankOf t = promoRank then
          promoChoices.map fun pt => (t, some pt, MoveKind.normal)
        else [(t, none, MoveKind.normal)]) ++
        (if rankOf s = startRank then
          match shift t (0, dr) with
          | some t2 => if (b.pieceAt t2).isNone then [(t2, none, MoveKind.normal)] else []
          | none => []
        else [])
      else []
  let captures : List (Nat × Option PieceType × MoveKind) :=
    [(-1 : Int), 1].flatMap fun df =>
      match shift s (df, dr) with
      | none => []
      | some t =>
        if occupiedBy b c.other t then
          if rankOf t = promoRank then
            promoChoices.map fun pt => (t, some pt, MoveKind.normal)
          else [(t, none, MoveKind.normal)]
        else if b.epTarget == some t then [(t, none, MoveKind.enPassant)]
        else []
  pushes ++ captures

/-- Modelled from the spec: pseudo-legal pawn moves from `s` (spec section
4.3), each target of `pawnTargets` as a Move from `s`. -/
def pawnMoves (b : Board) (s : Nat) (c : Color) : List Move :=
  (pawnTargets b s c).map fun x => ⟨s, x.1, x.2.1, x.2.2⟩

/-- Moves of a leaper (knight or king) on `s`: every offset target not occupied
by a friendly piece. -/
def leaperMoves (b : Board) (s : Nat) (c : Color) (targets : List Nat) : List Move :=
  targets.filterMap fun t =>
    if occupiedBy b c t then none else some ⟨s, t, none, .normal⟩

/-- Moves of a slider on `s`: along each ray until the first occupied square,
which may be entered only when it holds an enemy piece. -/
def sliderMoves (b : Board) (s : Nat) (c : Color) (dirs : List (Int × Int)) : List Move :=
  dirs.flatMap fun d =>
    (rayAttacks b s d).filterMap fun t =>
      if occupiedBy b c t then none else some ⟨s, t, none, .normal⟩

/-- Pseudo-legal moves of the piece `p` standing on `s`. -/
def pieceMoves (b : Board) (s : Nat) (p : Piece) : List Move :=
  match p.pt with
  | .pawn => pawnMoves b s p.color
  | .knight => leaperMoves b s p.color (knightAttacksBB s)
  | .king => leaperMoves b s p.color (kingAttacksBB s)
  | .bishop => sliderMoves b s p.color bishopDirs
  | .rook => sliderMoves b s p.color rookDirs
  | .queen => sliderMoves b s p.color queenDirs

/-- Modelled from the spec: castling moves of the side to move (spec section
4.3) — allowed only with the castling-rights flag set, king and rook on their
home squares, the squares between them empty, the king not in check and not
passing through or landing on an attacked square. -/
def castleMoves (b : Board) : List Move :=
  match b.turn with
  | .white =>
    (if b.castleWK ∧ b.pieceAt 4 = some ⟨.king, .white⟩ ∧ b.pieceAt 7 = some ⟨.rook, .white⟩ ∧
        b.pieceAt 5 = none ∧ b.pieceAt 6 = none ∧
        isAttackedBy b .black 4 = false ∧ isAttackedBy b .black 5 = false ∧
        isAttackedBy b .black 6 = false then
      [⟨4, 6, none, .castleKing⟩] else []) ++
    (if b.castleWQ ∧ b.pieceAt 4 = some ⟨.king, .white⟩ ∧ b.pieceAt 0 = some ⟨.rook, .white⟩ ∧
        b.pieceAt 1 = none ∧ b.pieceAt 2 = none ∧ b.pieceAt 3 = none ∧
        isAttackedBy b .black 4 = false ∧ isAttackedBy b .black 3 = false ∧
        isAttackedBy b .black 2 = false then
      [⟨4, 2, none, .castleQueen⟩] else [])
  | .black =>
    (if b.castleBK ∧ b.pieceAt 60 = some ⟨.king, .black⟩ ∧ b.pieceAt 63 = some ⟨.rook, .black⟩ ∧
        b.pieceAt 61 = none ∧ b.pieceAt 62 = none ∧
        isAttackedBy b .white 60 = false ∧ isAttackedBy b .white 61 = false ∧
        isAttackedBy b .white 62 = false then
      [⟨60, 62, none, .castleKing⟩] else []) ++
    (if b.castleBQ ∧ b.pieceAt 60 = some ⟨.king, .black⟩ ∧ b.pieceAt 56 = some ⟨.rook, .black⟩ ∧
        b.pieceAt 57 = none ∧ b.pieceAt 58 = none ∧ b.pieceAt 59 = none ∧
        isAttackedBy b .white 60 = false ∧ isAttackedBy b .white 59 = false ∧
        isAttackedBy b .white 58 = false then
      [⟨60, 58, none, .castleQueen⟩] else [])

/-- All pseudo-legal moves of the side to move, by origin square ascending
(spec section 4.3: order deterministic by origin then destination). -/
def pseudoMoves (b : Board) : List Move :=
  ((List.range 64).flatMap fun s =>
    match b.pieceAt s with
    | some p => if p.color = b.turn then pieceMoves b s p else []
    | none => []) ++ castleMoves b

/-- Point update of the square map. -/
def setSq (f : Nat → Option Piece) (s : Nat) (v : Option Piece) : Nat → Option Piece :=
  fun t => if t = s then v else f t

/-- Modelled from the spec: applying a Move yields a new Position (spec
section 3): the piece leaves its origin, lands (possibly promoted) on the
destination, an en-passant capture removes the passed pawn, castling also
moves the rook, rights are cleared by king/rook moves or captures on the rook
home squares, a double pawn push records the en-passant target, and the side
to move flips. -/
def applyMove (b : Board) (m : Move) : Board :=
  let mover := b.pieceAt m.fromSq
  let landed : Option Piece :=
    match mover, m.promo with
    | some p, some pt => some ⟨pt, p.color⟩
    | some p, none => some p
    | none, _ => none
  let base := setSq (setSq b.pieceAt m.fromSq none) m.toSq landed
  let pieces :=
    match m.kind with
    | .enPassant => setSq base (mkSq (fileOf m.toSq) (rankOf m.fromSq)) none
    | .castleKing =>
      if m.toSq = 6 then setSq (setSq base 7 none) 5 (some ⟨.rook, .white⟩)
      else setSq (setSq base 63 none) 61 (some ⟨.rook, .black⟩)
    | .castleQueen =>
      if m.toSq = 2 then setSq (setSq base 0 none) 3 (some ⟨.rook, .white⟩)
      else setSq (setSq base 56 none) 59 (some ⟨.rook, .black⟩)
    | .normal => base
  let isPawnDouble :=
    (match mover with | some p => p.pt == .pawn | none => false) &&
    ((m.toSq : Int) - (m.fromSq : Int) == 16 || (m.fromSq : Int) - (m.toSq : Int) == 16)
  { pieceAt := pieces
    turn := b.turn.other
    castleWK := b.castleWK && m.fromSq ≠ 4 && m.fromSq ≠ 7 && m.toSq ≠ 7
    castleWQ := b.castleWQ && m.fromSq ≠ 4 && m.fromSq ≠ 0 && m.toSq ≠ 0
    castleBK := b.castleBK && m.fromSq ≠ 60 && m.fromSq ≠ 63 && m.toSq ≠ 63
    castleBQ := b.castleBQ && m.fromSq ≠ 60 && m.fromSq ≠ 56 && m.toSq ≠ 56
    epTarget := if isPawnDouble then some ((m.fromSq + m.toSq) / 2) else none }

/-- Modelled from the spec: python-chess `Board.legal_moves` — the pseudo-legal
moves that do not leave the moving side's king in check (spec section 4.3,
simulate-then-test). -/
def legalMoves (b : Board) : List Move :=
  (pseudoMoves b).filter fun m => !(inCheck (applyMove b m) b.turn)

/-- Spec glossary: checkmate — no legal moves and the side to move in check. -/
def isCheckmate (b : Board) : Prop :=
  legalMoves b = [] ∧ inCheck b b.turn = true

/-- Spec glossary: stalemate — no legal moves and the side to move not in
check. -/
def isStalemate (b : Board) : Prop :=
  legalMoves b = [] ∧ inCheck b b.turn = false

/-! ### Feature bank

Every function below is translated from `src/features/features.py`
(`ChessFeatureExtractor`); `src/backend/features.py` holds a line-for-line
identical function-style copy.  python-chess `board.pieces(pt, color)` and
`chess.SQUARES` iterate squares in ascending order, which `List.range 64`
reproduces. -/

/-- `board.pieces(pt, color)`: ascending squares holding that piece. -/
def piecesOf (b : Board) (pt : PieceType) (c : Color) : List Nat :=
  (List.range 64).filter fun s => b.pieceAt s == some ⟨pt, c⟩

/-- `board.piece_map()`: ascending occupied squares. -/
def occupiedSquares (b : Board) : List Nat :=
  (List.range 64).filter fun s => (b.pieceAt s).isSome

/-- `board.color_at(square)`. -/
def colorAt (b : Board) (s : Nat) : Option Color :=
  (b.pieceAt s).map (·.color)

/-- `board.has_castling_rights(color)`. -/
def hasCastlingRights (b : Board) (c : Color) : Bool :=
  match c with
  | .white => b.castleWK || b.castleWQ
  | .black => b.castleBK || b.castleBQ

/-- The `piece_values` table: pawn 1, knight 3, bishop 3, rook 5, queen 9,
king 0. -/
def pieceValue : PieceType → Nat
  | .pawn => 1
  | .knight => 3
  | .bishop => 3
  | .rook => 5
  | .queen => 9
  | .king => 0

/-- `get_material`: total material of White and of Black, accumulated over all
squares. -/
def get_material (b : Board) : Nat × Nat :=
  (List.range 64).foldl
    (fun acc square =>
      match b.pieceAt square with
      | some piece =>
        if piece.color = .white then (acc.1 + pieceValue piece.pt, acc.2)
        else (acc.1, acc.2 + pieceValue piece.pt)
      | none => acc)
    (0, 0)

/-- `get_mobility`: `len(list(board.legal_moves))`. -/
def get_mobility (b : Board) : Nat := (legalMoves b).length

/-- `get_king_safety`: "Safe" when at most two of the king's adjacent squares
are attacked by the enemy and the color has no castling rights left, else
"Exposed".  (A position without the king — excluded for valid Positions by the
spec section 3 invariant — yields "Exposed".) -/
def get_king_safety (b : Board) (c : Color) : String :=
  match kingSq b c with
  | none => "Exposed"
  | some king_sq =>
    let castled : Bool := !(hasCastlingRights b c)
    let unsafeCount : Nat :=
      (kingAttacksBB king_sq).countP fun sq => isAttackedBy b c.other sq
    if unsafeCount ≤ 2 ∧ castled = true then "Safe" else "Exposed"

/-- Result record of `get_pawn_structure`. -/
structure PawnStructure where
  doubled : Nat
  isolated : Nat
  passed : Nat
deriving DecidableEq, Repr

/-- The source's passed-pawn scan condition: some square on the same file at a
strictly higher rank (`range(rank+1, 8)`, both colors alike) holds a piece of
the other color.  This exact loop appears in both `get_pawn_structure` and
`get_passed_pawn_advancement`. -/
def blockedAbove (b : Board) (c : Color) (sq : Nat) : Bool :=
  (List.range' (rankOf sq + 1) (8 - (rankOf sq + 1))).any fun ahead =>
    match b.pieceAt (mkSq (fileOf sq) ahead) with
    | some p => p.color != c
    | none => false

/-- `get_pawn_structure`: doubled files, isolated files and the passed count
of the source (the scan of `blockedAbove`). -/
def get_pawn_structure (b : Board) (c : Color) : PawnStructure :=
  let pawns := piecesOf b .pawn c
  let files := pawns.map fileOf
  let filesSet := files.eraseDups
  let doubled := filesSet.countP fun f => files.count f > 1
  let isolated := filesSet.countP fun f =>
    (filesSet.filter (· ≠ f)).all fun other => ((f : Int) - other).natAbs > 1
  let passed := pawns.countP fun sq => !(blockedAbove b c sq)
  ⟨doubled, isolated, passed⟩

/-- The four central squares d4, d5, e4, e5 as square indices. -/
def centerSquares : List Nat := [27, 35, 28, 36]

/-- `get_center_control`: central squares attacked by the color. -/
def get_center_control (b : Board) (c : Color) : Nat :=
  centerSquares.countP fun sq => isAttackedBy b c sq

/-- `get_development`: minor pieces off their own back rank. -/
def get_development (b : Board) (c : Color) : Nat :=
  let minors := (List.range 64).filter fun s =>
    b.pieceAt s == some ⟨.knight, c⟩ || b.pieceAt s == some ⟨.bishop, c⟩
  minors.countP fun sq =>
    (c == .white && rankOf sq > 0) || (c == .black && rankOf sq < 7)

/-- Does the file hold any pawn of either color? -/
def fileHasPawn (b : Board) (f : Nat) : Bool :=
  (List.range 8).any fun rank =>
    match b.pieceAt (mkSq f rank) with
    | some p => p.pt == .pawn
    | none => false

/-- `get_rook_activity`: rooks on files bearing no pawn. -/
def get_rook_activity (b : Board) (c : Color) : Nat :=
  (piecesOf b .rook c).countP fun r => !(fileHasPawn b (fileOf r))

/-- `get_hanging_pieces`: own pieces attacked by the opponent and not defended. -/
def get_hanging_pieces (b : Board) (c : Color) : Nat :=
  (occupiedSquares b).countP fun sq =>
    occupiedBy b c sq && !(isAttackedBy b c sq) && isAttackedBy b c.other sq

/-- `get_piece_activity`: legal moves whose origin square holds a piece of the
color. -/
def get_piece_activity (b : Board) (c : Color) : Nat :=
  (legalMoves b).countP fun move => colorAt b move.fromSq == some c

/-- `get_piece_coordination`: own pieces standing on a square attacked (i.e.
defended) by their own color. -/
def get_piece_coordination (b : Board) (c : Color) : Nat :=
  (occupiedSquares b).countP fun sq =>
    occupiedBy b c sq && isAttackedBy b c sq

/-- `get_bishop_pair_bonus`. -/
def get_bishop_pair_bonus (b : Board) (c : Color) : Nat :=
  if (piecesOf b .bishop c).length ≥ 2 then 1 else 0

/-- `get_open_file_control`: rooks and queens on pawnless files. -/
def get_open_file_control (b : Board) (c : Color) : Nat :=
  (piecesOf b .rook c ++ piecesOf b .queen c).countP fun sq =>
    !(fileHasPawn b (fileOf sq))

/-- `get_space_advantage`: attacked squares in the opponent's half, scanned
rank-major as in the source. -/
def get_space_advantage (b : Board) (c : Color) : Nat :=
  let halfRanks := match c with | .white => [4, 5, 6, 7] | .black => [0, 1, 2, 3]
  (halfRanks.flatMap fun rank => (List.range 8).map fun file => mkSq file rank).countP
    fun sq => isAttackedBy b c sq

/-- `get_weak_squares`: central squares neither attacked by the color nor
occupied. -/
def get_weak_squares (b : Board) (c : Color) : Nat :=
  centerSquares.countP fun sq =>
    !(isAttackedBy b c sq) && (b.pieceAt sq).isNone

/-- `get_outposts`: pairs of an own knight and a square it attacks that the
opponent does not attack. -/
def get_outposts (b : Board) (c : Color) : Nat :=
  ((piecesOf b .knight c).flatMap fun n => knightAttacksBB n).countP fun sq =>
    !(isAttackedBy b c.other sq)

/-- `get_pinned_pieces`: non-king pieces of the color that are pinned (the
source unions the pawn, knight, bishop, rook and queen square sets). -/
def get_pinned_pieces (b : Board) (c : Color) : Nat :=
  ((List.range 64).filter fun s =>
    match b.pieceAt s with
    | some p => p.color == c && p.pt != .king
    | none => false).countP fun sq => isPinned b c sq

/-- Result record of `get_attacked_vs_defended_balance`. -/
structure AttackedDefended where
  attacked : Nat
  defended : Nat
deriving DecidableEq, Repr

/-- `get_attacked_vs_defended_balance`: over every occupied square (the full
`piece_map()`, pieces of both colors), count those attacked by the opponent of
`c` and those attacked by `c`. -/
def get_attacked_vs_defended_balance (b : Board) (c : Color) : AttackedDefended :=
  { attacked := (occupiedSquares b).countP fun sq => isAttackedBy b c.other sq
    defended := (occupiedSquares b).countP fun sq => isAttackedBy b c sq }

/-- `get_castling_status`. -/
def get_castling_status (b : Board) (c : Color) : Bool :=
  hasCastlingRights b c

/-- `get_king_zone_control`: squares adjacent to the own king attacked by the
color itself (0 without a king, unreachable for valid Positions). -/
def get_king_zone_control (b : Board) (c : Color) : Nat :=
  match kingSq b c with
  | none => 0
  | some king_sq => (kingAttacksBB king_sq).countP fun sq => isAttackedBy b c sq

/-- `get_rook_on_7th_rank`: rooks on rank index 6 for White, 1 for Black. -/
def get_rook_on_7th_rank (b : Board) (c : Color) : Nat :=
  let rank : Nat := match c with | .white => 6 | .black => 1
  (piecesOf b .rook c).countP fun sq => rankOf sq == rank

/-- `get_connected_rooks`: 1 when the color has exactly two rooks and each of
the two rook squares is attacked by the color itself, else 0. -/
def get_connected_rooks (b : Board) (c : Color) : Nat :=
  match piecesOf b .rook c with
  | [r0, r1] => if isAttackedBy b c r0 && isAttackedBy b c r1 then 1 else 0
  | _ => 0

/-- `get_passed_pawn_advancement`: for each pawn passing the `blockedAbove`
scan, add `chess.square_rank(sq)` — the raw rank index. -/
def get_passed_pawn_advancement (b : Board) (c : Color) : Nat :=
  (((piecesOf b .pawn c).filter fun sq => !(blockedAbove b c sq)).map rankOf).sum

/-- `get_pawn_shield`: own pawns on the three files around the king, one rank
in front of it (0 without a king, unreachable for valid Positions). -/
def get_pawn_shield (b : Board) (c : Color) : Nat :=
  match kingSq b c with
  | none => 0
  | some king_sq =>
    let rank := rankOf king_sq
    let file := fileOf king_sq
    let frontRank : Int := match c with | .white => (rank : Int) + 1 | .black => (rank : Int) - 1
    let files : List Int := [(file : Int) - 1, (file : Int), (file : Int) + 1]
    files.countP fun (f : Int) =>
      if 0 ≤ f ∧ f < 8 ∧ 0 ≤ frontRank ∧ frontRank < 8 then
        match b.pieceAt (mkSq f.toNat frontRank.toNat) with
        | some piece => piece.color == c && piece.pt == .pawn
        | none => false
      else false

/-- The two supporter indices of `get_backward_pawns`:
`chess.square(file∓1, rank∓1) = (rank∓1)*8 + (file∓1)` computed as raw
integers, which can fall off the board or wrap across its edge. -/
def backwardSupporters (c : Color) (p : Nat) : List Int :=
  let file : Int := fileOf p
  let rank : Int := rankOf p
  match c with
  | .white => [(rank - 1) * 8 + (file - 1), (rank - 1) * 8 + (file + 1)]
  | .black => [(rank + 1) * 8 + (file - 1), (rank + 1) * 8 + (file + 1)]

/-- `get_backward_pawns`: pawns both of whose supporter indices are out of
range, empty, or hold a non-pawn piece (of either color). -/
def get_backward_pawns (b : Board) (c : Color) : Nat :=
  (piecesOf b .pawn c).countP fun p =>
    (backwardSupporters c p).all fun s =>
      decide (s < 0) || decide (64 ≤ s) ||
      (match b.pieceAt s.toNat with
       | some piece => piece.pt != .pawn
       | none => true)

/-- `get_isolated_weakness_clusters`: distinct files of the color's pawns with
no pawn file within distance 1. -/
def get_isolated_weakness_clusters (b : Board) (c : Color) : Nat :=
  let files := (piecesOf b .pawn c).map fileOf
  let filesSet := files.eraseDups
  filesSet.countP fun f =>
    (filesSet.filter (· ≠ f)).all fun other => ((f : Int) - other).natAbs > 1

/-! ### The feature bundle and the position differ

The bundle returned by `_extract_all_features` is a Python dict whose values
are numbers, strings, booleans or nested dicts; `compare_features` walks it
recursively.  `FVal`/`FDict` mirror that value shape, with `FDict` keeping the
insertion order of keys. -/

mutual
/-- A bundle value: a count, a label, a boolean, or a nested record. -/
inductive FVal where
  | num : Nat → FVal
  | str : String → FVal
  | bool : Bool → FVal
  | dict : FDict → FVal
deriving DecidableEq
/-- An ordered string-keyed mapping, as a Python dict in insertion order. -/
inductive FDict where
  | nil : FDict
  | cons : String → FVal → FDict → FDict
deriving DecidableEq
end

/-- First binding of a key, as Python dict lookup (`f1[key]`; keys of a Python
dict are unique, so first = only). -/
def lookupD : FDict → String → Option FVal
  | .nil, _ => none
  | .cons k v rest, key => if k == key then some v else lookupD rest key

/-- Build an `FDict` from an association list, preserving order. -/
def fdOf : List (String × FVal) → FDict
  | [] => .nil
  | (k, v) :: rest => .cons k v (fdOf rest)

mutual
/-- `compare_features(f1, f2)`: walk the keys of `f2` in order; a key missing
from `f1` is copied verbatim; a dict value recurses and is kept only when the
sub-diff is non-empty; a leaf is kept only when the values differ.  `none`
models the `TypeError` Python raises when `f2` holds a dict where `f1` holds a
leaf (never reached on bundles of equal shape).  The per-key body of the
Python loop is split into `compareEntry`. -/
def compare_features : FDict → FDict → Option FDict
  | _, .nil => some .nil
  | f1, .cons key val2 rest =>
    match compare_features f1 rest with
    | none => none
    | some tail =>
      match lookupD f1 key with
      | none => some (.cons key val2 tail)
      | some val1 => compareEntry key val1 val2 tail
/-- One iteration of the `compare_features` loop once both values are present:
recurse on dicts, compare leaves, prepend to the already-computed tail. -/
def compareEntry : String → FVal → FVal → FDict → Option FDict
  | key, val1, .dict d2, tail =>
    match val1 with
    | .dict d1 =>
      match compare_features d1 d2 with
      | none => none
      | some sub => if sub = .nil then some tail else some (.cons key (.dict sub) tail)
    | _ => none
  | key, val1, .num n, tail =>
    if val1 = .num n then some tail else some (.cons key (.num n) tail)
  | key, val1, .str s, tail =>
    if val1 = .str s then some tail else some (.cons key (.str s) tail)
  | key, val1, .bool bv, tail =>
    if val1 = .bool bv then some tail else some (.cons key (.bool bv) tail)
end

/-- A per-color pair entry, `{"white": ..., "black": ...}`. -/
def wbPair (w bl : FVal) : FVal := .dict (fdOf [("white", w), ("black", bl)])

/-- The `pawn_structure` record as a bundle value. -/
def pawnStructureVal (ps : PawnStructure) : FVal :=
  .dict (fdOf [("doubled", .num ps.doubled), ("isolated", .num ps.isolated),
               ("passed", .num ps.passed)])

/-- The `attacked_vs_defended` record as a bundle value. -/
def attackedDefendedVal (ad : AttackedDefended) : FVal :=
  .dict (fdOf [("attacked", .num ad.attacked), ("defended", .num ad.defended)])

/-- `_extract_all_features`: the full bundle, with the exact key set and
nesting of the source. -/
def extractAll (b : Board) : FDict :=
  let material := get_material b
  fdOf
    [("material", wbPair (.num material.1) (.num material.2)),
     ("mobility", .num (get_mobility b)),
     ("king_safety", wbPair (.str (get_king_safety b .white)) (.str (get_king_safety b .black))),
     ("pawn_structure", wbPair (pawnStructureVal (get_pawn_structure b .white))
        (pawnStructureVal (get_pawn_structure b .black))),
     ("center_control", wbPair (.num (get_center_control b .white))
        (.num (get_center_control b .black))),
     ("development", wbPair (.num (get_development b .white)) (.num (get_development b .black))),
     ("rook_activity", wbPair (.num (get_rook_activity b .white))
        (.num (get_rook_activity b .black))),
     ("threats", wbPair (.num (get_hanging_pieces b .white)) (.num (get_hanging_pieces b .black))),
     ("piece_activity", wbPair (.num (get_piece_activity b .white))
        (.num (get_piece_activity b .black))),
     ("piece_coordination", wbPair (.num (get_piece_coordination b .white))
        (.num (get_piece_coordination b .black))),
     ("bishop_pair_bonus", wbPair (.num (get_bishop_pair_bonus b .white))
        (.num (get_bishop_pair_bonus b .black))),
     ("open_file_control", wbPair (.num (get_open_file_control b .white))
        (.num (get_open_file_control b .black))),
     ("space_advantage", wbPair (.num (get_space_advantage b .white))
        (.num (get_space_advantage b .black))),
     ("weak_squares", wbPair (.num (get_weak_squares b .white)) (.num (get_weak_squares b .black))),
     ("outposts", wbPair (.num (get_outposts b .white)) (.num (get_outposts b .black))),
     ("pinned_pieces", wbPair (.num (get_pinned_pieces b .white))
        (.num (get_pinned_pieces b .black))),
     ("attacked_vs_defended", wbPair (attackedDefendedVal (get_attacked_vs_defended_balance b .white))
        (attackedDefendedVal (get_attacked_vs_defended_balance b .black))),
     ("castling_status", wbPair (.bool (get_castling_status b .white))
        (.bool (get_castling_status b .black))),
     ("king_zone_control", wbPair (.num (get_king_zone_control b .white))
        (.num (get_king_zone_control b .black))),
     ("rook_on_7th_rank", wbPair (.num (get_rook_on_7th_rank b .white))
        (.num (get_rook_on_7th_rank b .black))),
     ("connected_rooks", wbPair (.num (get_connected_rooks b .white))
        (.num (get_connected_rooks b .black))),
     ("passed_pawn_advancement", wbPair (.num (get_passed_pawn_advancement b .white))
        (.num (get_passed_pawn_advancement b .black))),
     ("pawn_shield", wbPair (.num (get_pawn_shield b .white)) (.num (get_pawn_shield b .black))),
     ("backward_pawns", wbPair (.num (get_backward_pawns b .white))
        (.num (get_backward_pawns b .black))),
     ("isolated_weakness_clusters", wbPair (.num (get_isolated_weakness_clusters b .white))
        (.num (get_isolated_weakness_clusters b .black)))]

/-- `extract_features(curr, prev)`: with a previous position the diff of the
two bundles, else the current bundle (always `some` in that branch). -/
def extract_features (curr : Board) (prev : Option Board) : Option FDict :=
  match prev with
  | some pb => compare_features (extractAll pb) (extractAll curr)
  | none => some (extractAll curr)

/-! ### The backend feature-vector extractor (`src/backend/feature_vectors.py`)

`ChessFeatureExtractor.extract_features` builds a board-pattern tensor, a
move-sequence encoding, three placeholder scores drawn from `np.random.rand()`
and an optional engine evaluation.  The three uncontrolled random draws are
modelled as an explicit argument (floats in [0,1) modelled as rationals); the
process-local Python string hash of `move_sequence_features` is modelled as an
explicit function argument; the engine is absent (the constructor without a
`stockfish_path`), so `stockfish_eval` returns its neutral default 0. -/

/-- Channel index of a piece in the 8x8x12 tensor: piece-type index plus 6 for
Black. -/
def pieceChannel (p : Piece) : Nat :=
  (match p.pt with
   | .pawn => 0 | .knight => 1 | .bishop => 2
   | .rook => 3 | .queen => 4 | .king => 5) +
  (match p.color with | .white => 0 | .black => 6)

/-- `board_pattern_features`: the flattened 8x8x12 one-hot tensor, entry
`row * 96 + col * 12 + channel` set to 1 exactly when the square `row * 8 +
col` (the source's `divmod(square, 8)`) holds the piece of that channel. -/
def board_pattern_features (b : Board) : List Nat :=
  (List.range 768).map fun i =>
    let row := i / 96
    let col := (i / 12) % 8
    let ch := i % 12
    match b.pieceAt (row * 8 + col) with
    | some p => if pieceChannel p = ch then 1 else 0
    | none => 0

/-- `move_sequence_features`: a length-10 vector; slot `i` holds
`hash(move) % 1000 / 1000` for the i-th of the last ten moves, 0 beyond. -/
def move_sequence_features (hashF : String → Nat) (moveList : List String) : List ℚ :=
  let lastTen := moveList.drop (moveList.length - 10)
  (List.range 10).map fun i =>
    match lastTen.get? i with
    | some move => (hashF move % 1000 : ℚ) / 1000
    | none => 0

/-- The `featureVector` record returned by the backend extractor. -/
structure FeatureVector where
  boardPatternFeatures : List Nat
  moveSequenceFeatures : List ℚ
  styleCluster : String
  riskTakingScore : ℚ
  tacticalAwarenessScore : ℚ
  endgameSkillScore : ℚ
  stockfishEval : ℚ
deriving DecidableEq, Repr

/-- `ChessFeatureExtractor.extract_features` of the backend (engine absent):
the board pattern and move features from the inputs, the style-cluster
placeholder, the three random draws folded in verbatim, and the neutral
engine score 0. -/
def extract_features_fv (hashF : String → Nat) (b : Board) (moveList : List String)
    (draws : ℚ × ℚ × ℚ) : FeatureVector :=
  { boardPatternFeatures := board_pattern_features b
    moveSequenceFeatures := move_sequence_features hashF moveList
    styleCluster := "aggressive"
    riskTakingScore := draws.1
    tacticalAwarenessScore := draws.2.1
    endgameSkillScore := draws.2.2
    stockfishEval := 0 }

/-! ### Spec-side definitions

Each definition below renders a sentence of the spec in its own words, to be
compared with the source-derived function above; none of them is used inside
the source embedding. -/

/-- Spec's words (section 4.4, `pawn_structure`): a pawn is passed when no
enemy pawn sits on the same file strictly ahead of it toward its promotion
rank — higher ranks for White, lower ranks for Black. -/
def passedPawnsSpec (b : Board) (c : Color) : Nat :=
  ((piecesOf b .pawn c).filter fun sq =>
    (piecesOf b .pawn c.other).all fun t =>
      !(fileOf t == fileOf sq &&
        (match c with
         | .white => rankOf t > rankOf sq
         | .black => rankOf t < rankOf sq))).length

/-- Spec's words (claim C1 amended): no piece of the other color on the same
file at a strictly higher rank, the scan running toward rank 8 for both
colors. -/
def passedScanSpec (b : Board) (c : Color) (sq : Nat) : Bool :=
  (List.range 8).all fun r =>
    !(decide (rankOf sq < r) &&
      (match b.pieceAt (mkSq (fileOf sq) r) with
       | some p => p.color != c
       | none => false))

/-- Spec's words (section 4.4, `connected_rooks`): exactly two rooks, each
defending the square of the other — i.e. each rook attacks the other rook's
square. -/
def connectedRooksSpec (b : Board) (c : Color) : Nat :=
  match piecesOf b .rook c with
  | [r0, r1] =>
    if (attacksFrom b r0).contains r1 && (attacksFrom b r1).contains r0 then 1 else 0
  | _ => 0

/-- Spec's words (section 4.4, `attacked_vs_defended`): `attacked` counts only
the color's own occupied squares attacked by the opponent, `defended` only the
color's own occupied squares attacked by the color itself. -/
def attackedDefendedSpec (b : Board) (c : Color) : AttackedDefended :=
  { attacked := ((List.range 64).filter fun sq => occupiedBy b c sq).countP
      fun sq => isAttackedBy b c.other sq
    defended := ((List.range 64).filter fun sq => occupiedBy b c sq).countP
      fun sq => isAttackedBy b c sq }

/-- Spec's words (section 4.4, `backward_pawns`): a pawn is backward when no
same-color pawn stands on an adjacent file one rank behind it (toward the own
back rank), off-board files counting as empty. -/
def backwardPawnsSpec (b : Board) (c : Color) : Nat :=
  (piecesOf b .pawn c).countP fun p =>
    !([(-1 : Int), 1].any fun df =>
      match shift p (df, match c with | .white => -1 | .black => 1) with
      | some s => b.pieceAt s == some ⟨.pawn, c⟩
      | none => false)

/-- Spec's words (claim C8 amended): some raw supporter index lands in [0,64)
and holds a pawn of either color. -/
def backwardSupportSpec (b : Board) (c : Color) (p : Nat) : Bool :=
  (backwardSupporters c p).any fun s =>
    decide (0 ≤ s) && decide (s < 64) &&
    (match b.pieceAt s.toNat with
     | some piece => piece.pt == .pawn
     | none => false)

/-- Spec's words (section 4.4, `passed_pawn_advancement`): the sum over the
color's passed pawns (no enemy pawn ahead toward promotion, as in
`passedPawnsSpec`) of the ranks already advanced from the starting rank —
rank index 1 for White, 6 for Black. -/
def passedPawnAdvancementSpec (b : Board) (c : Color) : Nat :=
  (((piecesOf b .pawn c).filter fun sq =>
    (piecesOf b .pawn c.other).all fun t =>
      !(fileOf t == fileOf sq &&
        (match c with
         | .white => rankOf t > rankOf sq
         | .black => rankOf t < rankOf sq))).map fun sq =>
      match c with
      | .white => rankOf sq - 1
      | .black => 6 - rankOf sq).sum

/-- Spec's words (claim C3): two squares are adjacent when their files and
ranks each differ by at most one and they are distinct (Chebyshev distance
exactly 1). -/
def adjacentSq (s t : Nat) : Bool :=
  max (((s % 8 : Nat) : Int) - (t % 8 : Nat)).natAbs
      (((s / 8 : Nat) : Int) - (t / 8 : Nat)).natAbs == 1

/-- Spec's words (claim C3): the number of squares adjacent to `k` attacked by
color `c`. -/
def attackedAdjacentCount (b : Board) (c : Color) (k : Nat) : Nat :=
  ((List.range 64).filter fun t => adjacentSq k t && isAttackedBy b c t).length

/-! ### Concrete positions used as witnesses and counterexamples -/

/-- Build a Board from a placement list, the side to move, no castling rights
and no en-passant target. -/
def boardOf (placement : List (Nat × Piece)) (t : Color) : Board :=
  { pieceAt := fun s => placement.lookup s
    turn := t
    castleWK := false
    castleWQ := false
    castleBK := false
    castleBQ := false
    epTarget := none }

/-- White king e1, white pawn e2, black king e8, black knight e4: the knight
(an enemy piece that is not a pawn) stands ahead of the e2 pawn. -/
def posPawnKnight : Board :=
  boardOf [(4, ⟨.king, .white⟩), (12, ⟨.pawn, .white⟩),
           (28, ⟨.knight, .black⟩), (60, ⟨.king, .black⟩)] .white

/-- White rooks a1 and h8 that do not attack one another, each defended by a
different white piece (king b1 defends a1, pawn g7 defends h8); black king e5. -/
def posLooseRooks : Board :=
  boardOf [(0, ⟨.rook, .white⟩), (1, ⟨.king, .white⟩), (54, ⟨.pawn, .white⟩),
           (63, ⟨.rook, .white⟩), (36, ⟨.king, .black⟩)] .white

/-- White king e1 alone against black king e8 and black rook a8: the black
rook defends the black king's square. -/
def posRookGuard : Board :=
  boardOf [(4, ⟨.king, .white⟩), (56, ⟨.rook, .black⟩), (60, ⟨.king, .black⟩)] .white

/-- White pawn a4 with a black pawn on b3: an enemy pawn on the supporter
square. -/
def posEnemySupport : Board :=
  boardOf [(4, ⟨.king, .white⟩), (24, ⟨.pawn, .white⟩),
           (17, ⟨.pawn, .black⟩), (60, ⟨.king, .black⟩)] .white

/-- White pawn a2 still on its starting square, with no enemy piece on the
a-file. -/
def posStartPawn : Board :=
  boardOf [(4, ⟨.king, .white⟩), (8, ⟨.pawn, .white⟩), (60, ⟨.king, .black⟩)] .white

/-- A stalemate: black to move with king a8 against white king b6 and white
queen c7 — no legal move, king not in check. -/
def posStalemate : Board :=
  boardOf [(41, ⟨.king, .white⟩), (50, ⟨.queen, .white⟩), (56, ⟨.king, .black⟩)] .black

/-- Bare kings on e1 and e8, used where only a valid king pair matters. -/
def posKings : Board :=
  boardOf [(4, ⟨.king, .white⟩), (60, ⟨.king, .black⟩)] .white

/-! ### Lemmas on the differ -/

/-- Keys of an `FDict`, in order. -/
def keysD : FDict → List String
  | .nil => []
  | .cons k _ rest => k :: keysD rest

/-- Entries of an `FDict`, in order. -/
def entriesD : FDict → List (String × FVal)
  | .nil => []
  | .cons k v rest => (k, v) :: entriesD rest

mutual
/-- A bundle is well-formed when its keys are distinct at every level, as any
mapping built by a Python dict literal is. -/
def wfD : FDict → Bool
  | .nil => true
  | .cons k v rest => !((keysD rest).contains k) && wfVal v && wfD rest
/-- Well-formedness of a bundle value. -/
def wfVal : FVal → Bool
  | .dict d => wfD d
  | _ => true
end

theorem key_mem_of_entry : ∀ {d : FDict} {k : String} {v : FVal},
    (k, v) ∈ entriesD d → k ∈ keysD d
  | .nil, _, _, h => by simp [entriesD] at h
  | .cons k0 v0 rest, k, v, h => by
    simp only [entriesD, List.mem_cons] at h
    rcases h with h | h
    · simp [keysD]
      exact Or.inl (Prod.ext_iff.mp h).1
    · simp [keysD]
      exact Or.inr (key_mem_of_entry h)

theorem lookup_self : ∀ {d : FDict}, wfD d = true →
    ∀ k v, (k, v) ∈ entriesD d → lookupD d k = some v
  | .nil, _, k, v, h => by simp [entriesD] at h
  | .cons k0 v0 rest, hwf, k, v, h => by
    simp only [wfD, Bool.and_eq_true, Bool.not_eq_true'] at hwf
    obtain ⟨⟨hk0, _⟩, hrest⟩ := hwf
    simp only [entriesD, List.mem_cons] at h
    rcases h with h | h
    · obtain ⟨h1, h2⟩ := Prod.ext_iff.mp h
      simp only at h1 h2
      subst h1; subst h2
      simp [lookupD]
    · have hkrest : k ∈ keysD rest := key_mem_of_entry h
      have hne : (k0 == k) = false := by
        rcases hbe : k0 == k with _ | _
        · rfl
        · exact absurd (eq_of_beq hbe ▸ hkrest)
            (by simpa [List.contains_iff_exists_mem_beq, beq_iff_eq] using hk0)
      simp [lookupD, hne, lookup_self hrest k v h]

theorem compare_self_nil : ∀ (f2 d : FDict), wfD f2 = true →
    (∀ k v, (k, v) ∈ entriesD f2 → lookupD d k = some v) →
    compare_features d f2 = some FDict.nil
  | .nil, d, _, _ => by simp [compare_features]
  | .cons key val2 rest, d, hwf, hsub => by
    have hwf0 : ¬(keysD rest).contains key = true ∧ wfVal val2 = true ∧ wfD rest = true := by
      simpa [wfD, Bool.and_eq_true, and_assoc, Bool.not_eq_true'] using hwf
    have htail : compare_features d rest = some FDict.nil :=
      compare_self_nil rest d hwf0.2.2
        (fun k v hm => hsub k v (by simp [entriesD, hm]))
    have hlook : lookupD d key = some val2 :=
      hsub key val2 (by simp [entriesD])
    cases val2 with
    | dict d2 =>
      have hwfd2 : wfD d2 = true := by simpa [wfVal] using hwf0.2.1
      have hself : compare_features d2 d2 = some FDict.nil :=
        compare_self_nil d2 d2 hwfd2 (lookup_self hwfd2)
      simp [compare_features, htail, hlook, compareEntry, hself]
    | num n => simp [compare_features, htail, hlook, compareEntry]
    | str s => simp [compare_features, htail, hlook, compareEntry]
    | bool bv => simp [compare_features, htail, hlook, compareEntry]

theorem wfD_extractAll (b : Board) : wfD (extractAll b) = true := by
  rfl

/-! ### Every move originates on a square of the side to move -/

theorem mem_pawnMoves_fromSq {b : Board} {s : Nat} {c : Color} {m : Move}
    (h : m ∈ pawnMoves b s c) : m.fromSq = s := by
  simp only [pawnMoves, List.mem_map] at h
  obtain ⟨x, _, hx⟩ := h
  exact (congrArg Move.fromSq hx).symm

theorem mem_leaperMoves_fromSq {b : Board} {s : Nat} {c : Color} {ts : List Nat} {m : Move}
    (h : m ∈ leaperMoves b s c ts) : m.fromSq = s := by
  simp only [leaperMoves, List.mem_filterMap] at h
  obtain ⟨t, _, ht⟩ := h
  split at ht
  · simp at ht
  · simp only [Option.some.injEq] at ht
    exact (congrArg Move.fromSq ht).symm

theorem mem_sliderMoves_fromSq {b : Board} {s : Nat} {c : Color} {dirs : List (Int × Int)}
    {m : Move} (h : m ∈ sliderMoves b s c dirs) : m.fromSq = s := by
  simp only [sliderMoves, List.mem_flatMap, List.mem_filterMap] at h
  obtain ⟨d, _, t, _, ht⟩ := h
  split at ht
  · simp at ht
  · simp only [Option.some.injEq] at ht
    exact (congrArg Move.fromSq ht).symm

theorem mem_pieceMoves_fromSq {b : Board} {s : Nat} {p : Piece} {m : Move}
    (h : m ∈ pieceMoves b s p) : m.fromSq = s := by
  obtain ⟨pt, col⟩ := p
  cases pt <;> simp only [pieceMoves] at h <;>
    first
      | exact mem_pawnMoves_fromSq h
      | exact mem_leaperMoves_fromSq h
      | exact mem_sliderMoves_fromSq h

theorem mem_castleMoves_color {b : Board} {m : Move} (h : m ∈ castleMoves b) :
    colorAt b m.fromSq = some b.turn := by
  unfold castleMoves at h
  rcases hturn : b.turn with _ | _ <;> rw [hturn] at h <;>
    simp only [List.mem_append] at h <;>
    rcases h with h | h <;> split at h <;>
    (simp only [List.mem_singleton, List.not_mem_nil] at h
     try (rename_i hc
          subst h
          simp [colorAt, hc.2.1, hturn]))

theorem mem_pseudoMoves_color {b : Board} {m : Move} (h : m ∈ pseudoMoves b) :
    colorAt b m.fromSq = some b.turn := by
  unfold pseudoMoves at h
  simp only [List.mem_append, List.mem_flatMap, List.mem_range] at h
  rcases h with ⟨s, _, hm⟩ | h
  · split at hm
    · rename_i p hp
      split at hm
      · rename_i hcol
        have hfrom : m.fromSq = s := mem_pieceMoves_fromSq hm
        rw [hfrom, colorAt, hp]
        simp [hcol]
      · simp at hm
    · simp at hm
  · exact mem_castleMoves_color h

theorem mem_legalMoves_color {b : Board} {m : Move} (h : m ∈ legalMoves b) :
    colorAt b m.fromSq = some b.turn :=
  mem_pseudoMoves_color (List.mem_filter.mp h).1

theorem other_ne (c : Color) : c.other ≠ c := by
  cases c <;> simp [Color.other]

/-! ### Helper lemmas for the feature claims -/

theorem not_blockedAbove_eq (b : Board) (c : Color) (sq : Nat) (hsq : sq < 64) :
    (!(blockedAbove b c sq)) = passedScanSpec b c sq := by
  have hr : rankOf sq < 8 := by unfold rankOf; omega
  rw [Bool.eq_iff_iff]
  constructor
  · intro hnb
    simp only [Bool.not_eq_true'] at hnb
    simp only [passedScanSpec, List.all_eq_true, List.mem_range]
    intro r hr8
    by_cases hlt : rankOf sq < r
    · have hmem : r ∈ List.range' (rankOf sq + 1) (8 - (rankOf sq + 1)) := by
        simp only [List.mem_range']
        exact ⟨r - rankOf sq - 1, by omega, by omega⟩
      have hP : ¬ ((match b.pieceAt (mkSq (fileOf sq) r) with
                    | some p => p.color != c
                    | none => false) = true) := by
        intro hP
        have hblock : blockedAbove b c sq = true := by
          simp only [blockedAbove, List.any_eq_true]
          exact ⟨r, hmem, hP⟩
        rw [hblock] at hnb
        exact absurd hnb (by simp)
      simp only [Bool.not_eq_true', Bool.and_eq_false_iff]
      right
      simpa using hP
    · simp only [Bool.not_eq_true', Bool.and_eq_false_iff]
      left
      simpa using hlt
  · intro hps
    simp only [Bool.not_eq_true']
    rw [← Bool.not_eq_true]
    intro hany
    simp only [blockedAbove, List.any_eq_true] at hany
    obtain ⟨r, hrmem, hP⟩ := hany
    simp only [List.mem_range'] at hrmem
    obtain ⟨i, hi, hri⟩ := hrmem
    have hr8 : r < 8 := by omega
    have hlt : rankOf sq < r := by omega
    simp only [passedScanSpec, List.all_eq_true, List.mem_range] at hps
    have := hps r hr8
    simp only [Bool.not_eq_true', Bool.and_eq_false_iff] at this
    rcases this with h | h
    · simp only [decide_eq_false_iff_not] at h
      exact h hlt
    · rw [hP] at h
      exact absurd h (by simp)

theorem kingAttacksBB_eq_filter :
    ∀ k, k < 64 → kingAttacksBB k = (List.range 64).filter fun t => adjacentSq k t := by
  decide

theorem all_eq_not_any {α : Type} (l : List α) (f g : α → Bool)
    (h : ∀ s, f s = !(g s)) : l.all f = !(l.any g) := by
  induction l with
  | nil => simp
  | cons x xs ih => simp [List.all_cons, List.any_cons, h x, ih, Bool.not_or]

theorem occupiedBy_other_eq (b : Board) (c : Color) (s : Nat) :
    (!(occupiedBy b c s) && (b.pieceAt s).isSome) = occupiedBy b c.other s := by
  unfold occupiedBy
  rcases hm : b.pieceAt s with _ | p
  · simp
  · cases c <;> cases hpc : p.color <;> simp [hpc, Color.other]

theorem occupiedBy_isSome (b : Board) (c : Color) (s : Nat) :
    (occupiedBy b c s && (b.pieceAt s).isSome) = occupiedBy b c s := by
  unfold occupiedBy
  rcases hm : b.pieceAt s with _ | p <;> simp

theorem countP_occupied_split (b : Board) (c : Color) (p : Nat → Bool) :
    (occupiedSquares b).countP p =
      ((List.range 64).filter (occupiedBy b c)).countP p +
      ((List.range 64).filter (occupiedBy b c.other)).countP p := by
  rw [occupiedSquares, List.countP_eq_countP_filter_add _ _ (occupiedBy b c)]
  congr 1
  · rw [List.filter_filter]
    congr 1
    apply List.filter_congr
    intro s _
    exact occupiedBy_isSome b c s
  · rw [List.filter_filter]
    congr 1
    apply List.filter_congr
    intro s _
    exact occupiedBy_other_eq b c s

/-! ### The claims -/

/-- C1 (counterexample): the passed component does not count pawns with no
enemy pawn strictly ahead toward promotion.  With a black knight on e4 ahead
of the white pawn e2, the source counts the pawn as blocked (its scan tests
any enemy piece, not only pawns), while the spec's count reports it passed. -/
theorem C1_counterexample :
    (get_pawn_structure posPawnKnight Color.white).passed = 0 ∧
    passedPawnsSpec posPawnKnight Color.white = 1 ∧
    (get_pawn_structure posPawnKnight Color.white).passed ≠
      passedPawnsSpec posPawnKnight Color.white := by
  decide

/-- C1 (amended): for every Position and color, the pawn_structure `passed`
component equals the number of that color's pawns with no piece of the other
color — of any type — on the same file at a strictly higher rank, the scan
running toward rank 8 for both colors. -/
theorem C1_passed_amended (b : Board) (c : Color) :
    (get_pawn_structure b c).passed =
      ((piecesOf b .pawn c).filter (passedScanSpec b c)).length := by
  have h1 : (get_pawn_structure b c).passed =
      (piecesOf b .pawn c).countP fun sq => !(blockedAbove b c sq) := rfl
  rw [h1, List.countP_eq_length_filter]
  congr 1
  apply List.filter_congr
  intro sq hsq
  have h64 : sq < 64 := by
    simp only [piecesOf, List.mem_filter, List.mem_range] at hsq
    exact hsq.1
  exact not_blockedAbove_eq b c sq h64

/-- C2: diffing the feature bundle extracted from a Position against the
bundle extracted from the same Position yields the empty mapping — no key
survives at any nesting level when every leaf is unchanged. -/
theorem C2_diff_self (b : Board) :
    extract_features b (some b) = some FDict.nil ∧
    compare_features (extractAll b) (extractAll b) = some FDict.nil := by
  have h : compare_features (extractAll b) (extractAll b) = some FDict.nil :=
    compare_self_nil (extractAll b) (extractAll b) (wfD_extractAll b)
      (lookup_self (wfD_extractAll b))
  exact ⟨h, h⟩

/-- C3: king_safety returns "Safe" exactly when at most 2 of the squares
adjacent to the color's king are attacked by the enemy and the color holds no
remaining castling rights; in every other case it returns "Exposed". -/
theorem C3_king_safety (b : Board) (c : Color) (k : Nat) (hk : kingSq b c = some k) :
    (get_king_safety b c = "Safe" ↔
      (attackedAdjacentCount b c.other k ≤ 2 ∧ hasCastlingRights b c = false)) ∧
    (get_king_safety b c = "Safe" ∨ get_king_safety b c = "Exposed") := by
  have h64 : k < 64 := by
    have hmem : k ∈ List.range 64 := List.mem_of_find?_eq_some hk
    exact List.mem_range.mp hmem
  have hcount : attackedAdjacentCount b c.other k =
      (kingAttacksBB k).countP fun sq => isAttackedBy b c.other sq := by
    unfold attackedAdjacentCount
    rw [kingAttacksBB_eq_filter k h64, ← List.countP_eq_length_filter,
      List.countP_filter]
    apply List.countP_congr
    intro t _
    simp [Bool.and_comm]
  simp only [get_king_safety, hk]
  split
  case isTrue hcond =>
    refine ⟨?_, Or.inl rfl⟩
    constructor
    · intro _
      exact ⟨by rw [hcount]; exact hcond.1, by simpa using hcond.2⟩
    · intro _
      rfl
  case isFalse hcond =>
    refine ⟨?_, Or.inr rfl⟩
    constructor
    · intro hstr
      exact absurd hstr (by decide)
    · intro hx
      exfalso
      exact hcond ⟨by rw [← hcount]; exact hx.1, by simp [hx.2]⟩

/-- C3 (witness): the bare-kings position instantiates the theorem at the
white king on e1. -/
theorem C3_king_safety_witness :
    kingSq posKings Color.white = some 4 ∧
    ((get_king_safety posKings Color.white = "Safe" ↔
      (attackedAdjacentCount posKings Color.black 4 ≤ 2 ∧
        hasCastlingRights posKings Color.white = false)) ∧
     (get_king_safety posKings Color.white = "Safe" ∨
      get_king_safety posKings Color.white = "Exposed")) :=
  ⟨by decide, C3_king_safety posKings Color.white 4 (by decide)⟩

/-- C4: a structurally valid Position with zero legal moves yields mobility 0
and is classified checkmate when the side to move is in check and stalemate
when it is not; every query involved is total, no error value exists. -/
theorem C4_no_moves (b : Board) (h : legalMoves b = []) :
    get_mobility b = 0 ∧
    (isCheckmate b ∨ isStalemate b) ∧
    (inCheck b b.turn = true → isCheckmate b) ∧
    (inCheck b b.turn = false → isStalemate b) := by
  refine ⟨by simp [get_mobility, h], ?_, fun hc => ⟨h, hc⟩, fun hs => ⟨h, hs⟩⟩
  rcases hC : inCheck b b.turn with _ | _
  · exact Or.inr ⟨h, hC⟩
  · exact Or.inl ⟨h, hC⟩

/-- C4 (witness): the stalemate position king a8 vs king b6 and queen c7,
black to move, has no legal moves and instantiates the theorem. -/
theorem C4_no_moves_witness :
    legalMoves posStalemate = [] ∧
    (get_mobility posStalemate = 0 ∧
     (isCheckmate posStalemate ∨ isStalemate posStalemate) ∧
     (inCheck posStalemate posStalemate.turn = true → isCheckmate posStalemate) ∧
     (inCheck posStalemate posStalemate.turn = false → isStalemate posStalemate)) :=
  ⟨by decide, C4_no_moves posStalemate (by decide)⟩

/-- C5 (counterexample): the backend extraction entry point folds the
uncontrolled random draws into the bundle, so two invocations on the same
board-state and move list but different draws return different bundles. -/
theorem C5_counterexample :
    extract_features_fv (fun _ => 0) posKings [] (0, 0, 0) ≠
    extract_features_fv (fun _ => 0) posKings [] (1, 0, 0) := by
  intro h
  have h1 := congrArg FeatureVector.riskTakingScore h
  simp only [extract_features_fv] at h1
  exact absurd h1 (by norm_num)

/-- C5 (amended): extraction is deterministic except for the three random
placeholder scores: the board-pattern, move-sequence, style-cluster and engine
components depend only on the inputs, while riskTakingScore,
tacticalAwarenessScore and endgameSkillScore are the random draws folded in
verbatim; the pure bundle extractor is a function of the Position alone. -/
theorem C5_determinism_amended (hashF : String → Nat) (b : Board) (ml : List String)
    (d d' : ℚ × ℚ × ℚ) :
    (extract_features_fv hashF b ml d).boardPatternFeatures =
      (extract_features_fv hashF b ml d').boardPatternFeatures ∧
    (extract_features_fv hashF b ml d).moveSequenceFeatures =
      (extract_features_fv hashF b ml d').moveSequenceFeatures ∧
    (extract_features_fv hashF b ml d).styleCluster =
      (extract_features_fv hashF b ml d').styleCluster ∧
    (extract_features_fv hashF b ml d).stockfishEval =
      (extract_features_fv hashF b ml d').stockfishEval ∧
    (extract_features_fv hashF b ml d).riskTakingScore = d.1 ∧
    (extract_features_fv hashF b ml d).tacticalAwarenessScore = d.2.1 ∧
    (extract_features_fv hashF b ml d).endgameSkillScore = d.2.2 ∧
    extract_features b none = some (extractAll b) :=
  ⟨rfl, rfl, rfl, rfl, rfl, rfl, rfl, rfl⟩

/-- C6 (counterexample): connected_rooks can return 1 although the two rooks
do not defend each other: rooks a1 and h8 are each defended by another white
piece (king b1, pawn g7) yet do not attack one another. -/
theorem C6_counterexample :
    get_connected_rooks posLooseRooks Color.white = 1 ∧
    connectedRooksSpec posLooseRooks Color.white = 0 ∧
    get_connected_rooks posLooseRooks Color.white ≠
      connectedRooksSpec posLooseRooks Color.white := by
  decide

/-- C6 (amended): connected_rooks returns 1 exactly when the color has
exactly two rooks and each of the two rook squares is attacked (defended) by
at least one piece of that color — not necessarily by the other rook; in
every other case it returns 0. -/
theorem C6_connected_amended (b : Board) (c : Color) :
    (get_connected_rooks b c = 1 ↔
      ((piecesOf b .rook c).length = 2 ∧
        ∀ r ∈ piecesOf b .rook c, isAttackedBy b c r = true)) ∧
    (get_connected_rooks b c = 0 ∨ get_connected_rooks b c = 1) := by
  rcases hl : piecesOf b .rook c with _ | ⟨r0, _ | ⟨r1, _ | ⟨r2, rest⟩⟩⟩
  · simp [get_connected_rooks, hl]
  · simp [get_connected_rooks, hl]
  · simp only [get_connected_rooks, hl]
    split
    case isTrue hatt =>
      simp only [Bool.and_eq_true] at hatt
      constructor
      · constructor
        · intro _
          refine ⟨rfl, ?_⟩
          intro r hr
          simp only [List.mem_cons, List.not_mem_nil, or_false] at hr
          rcases hr with hr | hr
          · rw [hr]; exact hatt.1
          · rw [hr]; exact hatt.2
        · intro _; rfl
      · right; rfl
    case isFalse hatt =>
      constructor
      · constructor
        · intro h0; exact absurd h0 (by omega)
        · intro hx
          exfalso
          apply hatt
          have ha0 := hx.2 r0 (by simp)
          have ha1 := hx.2 r1 (by simp)
          simp [ha0, ha1]
      · left; rfl
  · simp only [get_connected_rooks, hl]
    constructor
    · constructor
      · intro h0; exact absurd h0 (by omega)
      · intro hx
        have hlen := hx.1
        simp only [List.length_cons] at hlen
        omega
    · left; trivial

/-- C7 (counterexample): the attacked component counts enemy-occupied squares
too: with only the white king e1 against black king e8 and black rook a8 (the
rook defending e8), the source reports attacked = 1 for White though no white
piece is attacked. -/
theorem C7_counterexample :
    get_attacked_vs_defended_balance posRookGuard Color.white =
      ⟨1, 0⟩ ∧
    attackedDefendedSpec posRookGuard Color.white = ⟨0, 0⟩ ∧
    get_attacked_vs_defended_balance posRookGuard Color.white ≠
      attackedDefendedSpec posRookGuard Color.white := by
  decide

/-- C7 (amended): the attacked component counts every occupied square of
either color attacked by the opponent of the given color — the spec's
own-square count plus the enemy-occupied squares the opponent attacks — and
the defended component likewise counts every occupied square attacked by the
given color. -/
theorem C7_balance_amended (b : Board) (c : Color) :
    (get_attacked_vs_defended_balance b c).attacked =
      (attackedDefendedSpec b c).attacked +
        ((List.range 64).filter (occupiedBy b c.other)).countP
          (fun sq => isAttackedBy b c.other sq) ∧
    (get_attacked_vs_defended_balance b c).defended =
      (attackedDefendedSpec b c).defended +
        ((List.range 64).filter (occupiedBy b c.other)).countP
          (fun sq => isAttackedBy b c sq) :=
  ⟨countP_occupied_split b c _, countP_occupied_split b c _⟩

/-- C8 (counterexample): backward_pawns ignores the supporter's color: the
white pawn a4 with a black pawn on b3 is not counted backward by the source,
though it has no same-color supporter one rank behind. -/
theorem C8_counterexample :
    get_backward_pawns posEnemySupport Color.white = 0 ∧
    backwardPawnsSpec posEnemySupport Color.white = 1 ∧
    get_backward_pawns posEnemySupport Color.white ≠
      backwardPawnsSpec posEnemySupport Color.white := by
  decide

/-- C8 (amended): backward_pawns counts the pawns for which neither raw
supporter index — `(rank∓1)*8 + (file±1)`, integer arithmetic that can wrap
across the board edge — lands in [0,64) on a square holding a pawn of either
color. -/
theorem C8_backward_amended (b : Board) (c : Color) :
    get_backward_pawns b c =
      (piecesOf b .pawn c).countP fun p => !(backwardSupportSpec b c p) := by
  unfold get_backward_pawns backwardSupportSpec
  apply List.countP_congr
  intro p _
  have hpt : ∀ s : Int,
      (decide (s < 0) || decide (64 ≤ s) ||
        (match b.pieceAt s.toNat with
         | some piece => piece.pt != .pawn
         | none => true)) =
      !(decide (0 ≤ s) && decide (s < 64) &&
        (match b.pieceAt s.toNat with
         | some piece => piece.pt == .pawn
         | none => false)) := by
    intro s
    rcases hm : b.pieceAt s.toNat with _ | piece
    · by_cases h0 : s < 0
      · have hg : ¬ (0 ≤ s) := by omega
        simp [hm, h0, hg]
      · by_cases h64 : 64 ≤ s
        · have hg : ¬ (s < 64) := by omega
          simp [hm, h64, hg]
        · simp [hm, h0, h64]
    · by_cases h0 : s < 0
      · have hg : ¬ (0 ≤ s) := by omega
        simp [hm, h0, hg]
      · by_cases h64 : 64 ≤ s
        · have hg : ¬ (s < 64) := by omega
          simp [hm, h64, hg]
        · have hg0 : (0 : Int) ≤ s := by omega
          have hg64 : s < 64 := by omega
          simp [hm, h0, h64, hg0, hg64, bne]
  rw [all_eq_not_any _ _ _ hpt]

/-- C9 (counterexample): passed_pawn_advancement adds the raw rank index, not
the distance advanced from the start rank: the undeveloped white pawn a2
contributes 1 though it has advanced 0 ranks. -/
theorem C9_counterexample :
    get_passed_pawn_advancement posStartPawn Color.white = 1 ∧
    passedPawnAdvancementSpec posStartPawn Color.white = 0 ∧
    get_passed_pawn_advancement posStartPawn Color.white ≠
      passedPawnAdvancementSpec posStartPawn Color.white := by
  decide

/-- C9 (amended): passed_pawn_advancement equals the sum, over the color's
pawns with no piece of the other color on the same file at a strictly higher
rank, of the pawn's zero-based rank index. -/
theorem C9_advancement_amended (b : Board) (c : Color) :
    get_passed_pawn_advancement b c =
      (((piecesOf b .pawn c).filter (passedScanSpec b c)).map rankOf).sum := by
  unfold get_passed_pawn_advancement
  have hfil : (piecesOf b .pawn c).filter (fun sq => !(blockedAbove b c sq)) =
      (piecesOf b .pawn c).filter (passedScanSpec b c) := by
    apply List.filter_congr
    intro sq hsq
    have h64 : sq < 64 := by
      simp only [piecesOf, List.mem_filter, List.mem_range] at hsq
      exact hsq.1
    exact not_blockedAbove_eq b c sq h64
  rw [hfil]

/-- C10: every legal move originates from a piece of the side to move, hence
piece_activity of the side to move equals the mobility feature and
piece_activity of the other color equals 0. -/
theorem C10_piece_activity (b : Board) :
    get_piece_activity b b.turn = get_mobility b ∧
    get_piece_activity b b.turn.other = 0 ∧
    (legalMoves b).all (fun m => colorAt b m.fromSq == some b.turn) = true := by
  have hall : ∀ m ∈ legalMoves b, colorAt b m.fromSq = some b.turn :=
    fun m hm => mem_legalMoves_color hm
  refine ⟨?_, ?_, ?_⟩
  · unfold get_piece_activity get_mobility
    apply List.countP_eq_length.mpr
    intro m hm
    simp [hall m hm]
  · unfold get_piece_activity
    apply List.countP_eq_zero.mpr
    intro m hm
    rw [hall m hm]
    simp only [beq_iff_eq, Option.some.injEq]
    intro hEq
    exact other_ne b.turn hEq.symm
  · rw [List.all_eq_true]
    intro m hm
    simp [hall m hm]

end ChessGptt
